import Mathlib

set_option maxRecDepth 16384

/-!
Verification of the AGSA site-image extraction pipeline
(`tools/extract_site_images.py`).

Python strings are embedded as `List Char`; Python `dict`/`set` as
association lists / `List` with explicit membership; network, HTML
parsing (BeautifulSoup), the image decoder (PIL) and the `imagehash`
library are external collaborators and appear as oracle fields of an
environment record.  All definitions are executable and mirror the
source line by line.
-/

namespace SportSch

abbrev Str := List Char

/-- Python `s.lower()` (ASCII range, sufficient for the URLs and
    filenames handled by the tool). -/
def strLower (s : Str) : Str := s.map Char.toLower

/-- Python `needle in hay` substring test. -/
def strContains (hay needle : Str) : Bool :=
  match hay with
  | [] => needle.isPrefixOf ([] : Str)
  | _ :: t => needle.isPrefixOf hay || strContains t needle

/-- Python `s.startswith(p)`. -/
def strStarts (s p : Str) : Bool := p.isPrefixOf s

/-- Split at the first occurrence of `c`: `(before, after)`;
    when `c` is absent the whole string is `before` and `after = none`. -/
def splitFirst (c : Char) : Str → Str × Option Str
  | [] => ([], none)
  | h :: t =>
    if h = c then ([], some t)
    else
      let (b, a) := splitFirst c t
      (h :: b, a)

/-- Python string `<` : lexicographic comparison by code point. -/
def pyStrLt : Str → Str → Bool
  | [], [] => false
  | [], _ :: _ => true
  | _ :: _, [] => false
  | a :: s, b :: t => if a = b then pyStrLt s t else decide (a < b)

/-- Decimal digit characters of `n`, most significant first. -/
def natDigits (n : Nat) : Str :=
  (Nat.toDigits 10 n)

/-- Hex digit character for a value `< 16` (lowercase, as Python `%x`). -/
def hexChar (n : Nat) : Char :=
  if n < 10 then Char.ofNat (48 + n) else Char.ofNat (87 + n)

/-- Hex digits accumulator, driven by fuel so that the kernel can
    evaluate it (`fuel ≥ n` suffices). -/
def natHexAux : Nat → Nat → Str → Str
  | 0, _, acc => acc
  | _ + 1, 0, acc => acc
  | fuel + 1, n, acc => natHexAux fuel (n / 16) (hexChar (n % 16) :: acc)

/-- Hex digits of `n`, most significant first (`"0"` for zero). -/
def natHex (n : Nat) : Str :=
  if n = 0 then ['0'] else natHexAux n n []

/-- Python `f"{n:0kd}"`-style zero padding applied to a digit string. -/
def padZeros (width : Nat) (s : Str) : Str :=
  List.replicate (width - s.length) '0' ++ s

/-- Value of a hexadecimal digit, if any. -/
def hexDigitVal (c : Char) : Option Nat :=
  if '0' ≤ c ∧ c ≤ '9' then some (c.toNat - 48)
  else if 'a' ≤ c ∧ c ≤ 'f' then some (c.toNat - 87)
  else if 'A' ≤ c ∧ c ≤ 'F' then some (c.toNat - 70)
  else none

/-- Python `int(s, 16)` restricted to plain digit strings (no sign,
    whitespace, underscores or `0x` prefix appear in the hash strings
    this tool compares); `none` models `ValueError`. -/
def hexParse (s : Str) : Option Nat :=
  match s with
  | [] => none
  | _ =>
    s.foldl
      (fun acc c =>
        match acc, hexDigitVal c with
        | some v, some d => some (v * 16 + d)
        | _, _ => none)
      (some 0)

/-- Set-bit count accumulator, driven by fuel (`fuel ≥ n` suffices). -/
def popCountAux : Nat → Nat → Nat
  | 0, _ => 0
  | _ + 1, 0 => 0
  | fuel + 1, n => n % 2 + popCountAux fuel (n / 2)

/-- Number of set bits, Python `int.bit_count()`. -/
def popCount (n : Nat) : Nat := popCountAux n n

/-- Split at the last occurrence of `c` (`none` when `c` is absent). -/
def splitLast (c : Char) (s : Str) : Option (Str × Str) :=
  match splitFirst c s.reverse with
  | (_, none) => none
  | (revAfter, some revBefore) => some (revBefore.reverse, revAfter.reverse)

/-- Python `s.rpartition(c)[2]`: the part after the last `c`
    (the whole string when `c` is absent). -/
def afterLast (c : Char) (s : Str) : Str :=
  match splitLast c s with
  | none => s
  | some (_, a) => a

/-! ### `urllib.parse` model -/

structure UrlParts where
  scheme : Str
  netloc : Str
  path : Str
  params : Str
  query : Str
  fragment : Str
deriving DecidableEq

def isSchemeChar (c : Char) : Bool :=
  c.isAlpha || c.isDigit || c = '+' || c = '-' || c = '.'

/-- Scheme extraction of `urllib.parse.urlsplit`: a leading
    `letter (letter|digit|+|-|.)* ':'` is split off and lowercased. -/
def splitScheme (u : Str) : Str × Str :=
  match splitFirst ':' u with
  | (_, none) => ([], u)
  | (before, some after) =>
    match before with
    | [] => ([], u)
    | c0 :: _ =>
      if c0.isAlpha ∧ before.all isSchemeChar then (strLower before, after)
      else ([], u)

/-- Netloc extraction: after a leading `//`, up to the first of `/?#`. -/
def splitNetlocPart (u : Str) : Str × Str :=
  if strStarts u ['/', '/'] then
    let rest := u.drop 2
    (rest.takeWhile (fun c => ¬(c = '/' ∨ c = '?' ∨ c = '#')),
     rest.dropWhile (fun c => ¬(c = '/' ∨ c = '?' ∨ c = '#')))
  else ([], u)

/-- `urlparse`'s params split: at the first `;` in the last `/`-segment. -/
def splitParams (p : Str) : Str × Str :=
  match splitLast '/' p with
  | none =>
    match splitFirst ';' p with
    | (_, none) => (p, [])
    | (b, some a) => (b, a)
  | some (dir, lastSeg) =>
    match splitFirst ';' lastSeg with
    | (_, none) => (p, [])
    | (b, some a) => (dir ++ '/' :: b, a)

/-- `urllib.parse.urlparse` (scheme, then netloc, then fragment, then
    query, then params — the order CPython uses). -/
def pyUrlparse (u : Str) : UrlParts :=
  let (scheme, rest) := splitScheme u
  let (netloc, rest) := splitNetlocPart rest
  let (rest, frag) := splitFirst '#' rest
  let fragment := frag.getD []
  let (beforeQ, q) := splitFirst '?' rest
  let query := q.getD []
  let (path, params) := splitParams beforeQ
  ⟨scheme, netloc, path, params, query, fragment⟩

/-- `canonical_page` (extract_site_images.py:77-80):
    `f"{parsed.scheme}://{parsed.netloc}{parsed.path or '/'}"`. -/
def canonical_page (url : Str) : Str :=
  let parsed := pyUrlparse url
  let path := if parsed.path = [] then ['/'] else parsed.path
  parsed.scheme ++ ':' :: '/' :: '/' :: parsed.netloc ++ path

/-- `urlparse(url).hostname`: netloc after the last `@`, before the
    first `:`, lowercased; `none` when empty. -/
def pyHostname (url : Str) : Option Str :=
  let hostinfo := afterLast '@' (pyUrlparse url).netloc
  let host := strLower (splitFirst ':' hostinfo).1
  if host = [] then none else some host

/-! ### `pathlib.PurePosixPath` name / suffix model -/

/-- `Path(p).name`: the last non-empty, non-`.` slash-segment. -/
def pathName (p : Str) : Str :=
  ((p.splitOn '/').filter (fun s => s ≠ [] ∧ s ≠ ['.'])).getLast?.getD []

/-- `Path(p).suffix`: from the last dot of the name, provided that dot
    is neither leading nor trailing. -/
def pathSuffix (p : Str) : Str :=
  let name := pathName p
  match splitLast '.' name with
  | none => []
  | some (before, after) =>
    if before ≠ [] ∧ after ≠ [] then '.' :: after else []

/-! ### Constants (extract_site_images.py:36-45) -/

def MIN_BYTES : Nat := 40 * 1024
def MIN_LONGEST_SIDE : Nat := 600
def PHASH_DISTANCE_THRESHOLD : Nat := 6
def MAX_RETRIES : Nat := 3

/-! ### Regex models -/

/-- The alternation of `IMG_EXT_RE`:
    `jpg|jpeg|png|webp|gif|bmp|tiff|avif`. -/
def rasterExtNames : List Str :=
  [['j','p','g'], ['j','p','e','g'], ['p','n','g'], ['w','e','b','p'],
   ['g','i','f'], ['b','m','p'], ['t','i','f','f'], ['a','v','i','f']]

/-- A match of `IMG_EXT_RE` = `\.(jpg|jpeg|png|webp|gif|bmp|tiff|avif)(?:\?.*)?$`
    (case-insensitive) starting at the head of `s`: a dot, one of the
    extensions, then either end of string or a `?` running to the end. -/
def imgExtMatchAt : Str → Bool
  | [] => false
  | c :: rest =>
    c = '.' && rasterExtNames.any (fun e =>
      strStarts (strLower rest) e ∧
        (rest.drop e.length = [] ∨ (rest.drop e.length).head? = some '?'))

/-- `IMG_EXT_RE.search(u)`: a match starting at some position of `u`. -/
def imgExtSearch : Str → Bool
  | [] => imgExtMatchAt []
  | c :: t => imgExtMatchAt (c :: t) || imgExtSearch t

/-- The alternation of `LOGO_HINT_RE`. -/
def logoWords : List Str :=
  [['l','o','g','o'], ['i','c','o','n'], ['f','a','v','i','c','o','n'],
   ['b','a','d','g','e'], ['w','o','r','d','m','a','r','k'],
   ['e','m','b','l','e','m'], ['a','v','a','t','a','r']]

/-- `LOGO_HINT_RE.search(s)` (case-insensitive substring search). -/
def logoHintSearch (s : Str) : Bool :=
  logoWords.any (fun w => strContains (strLower s) w)

/-! ### Image filter (extract_site_images.py:169-192) -/

/-- Extensions recognized by `guess_extension` from the URL path. -/
def guessExtSet : List Str :=
  [".jpg".toList, ".jpeg".toList, ".png".toList, ".webp".toList,
   ".gif".toList, ".bmp".toList, ".tif".toList, ".tiff".toList,
   ".avif".toList]

/-- `guess_extension(url, image)`; `fmt` is `image.format or ""` as
    reported by the decoder. -/
def guess_extension (url : Str) (fmt : Str) : Str :=
  let ext := strLower (pathSuffix (pyUrlparse url).path)
  if ext ∈ guessExtSet then (if ext = ".jpeg".toList then ".jpg".toList else ext)
  else
    let f := strLower fmt
    if f = "jpeg".toList then ".jpg".toList
    else if f ≠ [] then '.' :: f
    else ".jpg".toList

/-- `should_skip(url, width, height, num_bytes, ext)`. -/
def should_skip (url : Str) (width height num_bytes : Nat) (ext : Str) : Bool :=
  let filename := strLower (pathName (pyUrlparse url).path)
  let longest := max width height
  if ext = ".svg".toList then true
  else if logoHintSearch filename then true
  else if num_bytes < MIN_BYTES then true
  else if longest < MIN_LONGEST_SIDE then true
  else false

/-! ### Perceptual hashes (extract_site_images.py:195-213) -/

def ahashTag : Str := "ahash-".toList

/-- The fallback branch of `compute_phash` (used when the `imagehash`
    library is unavailable): average-brightness bits of the 8×8
    grayscale thumbnail, rendered as `f"ahash-{int(bits,2):016x}"`.
    `p > avg` with `avg = sum/len` is taken exactly
    (`p * len > sum`). -/
def compute_phash_fallback (pixels : List Nat) : Str :=
  let total := pixels.foldl (· + ·) 0
  let n := pixels.length
  let bits := pixels.map (fun p => decide (p * n > total))
  let v := bits.foldl (fun acc b => acc * 2 + (if b then 1 else 0)) 0
  ahashTag ++ padZeros 16 (natHex v)

def isHexDigitChar (c : Char) : Bool := (hexDigitVal c).isSome

/-- Modelled from the spec: the primary fingerprint is
    `str(imagehash.phash(image))` of the external `imagehash` library —
    a 16-character hexadecimal bit-string encoding (64-bit hash). -/
def isPrimaryHash (s : Str) : Prop :=
  s.length = 16 ∧ ∀ c ∈ s, isHexDigitChar c = true

instance (s : Str) : Decidable (isPrimaryHash s) := by
  unfold isPrimaryHash; infer_instance

/-- `hamming_distance_hex(a, b)`. -/
def hamming_distance_hex (a b : Str) : Nat :=
  if strStarts a ahashTag ∨ strStarts b ahashTag then
    if a = b then 0 else 64
  else
    match hexParse a, hexParse b with
    | some x, some y => popCount (x ^^^ y)
    | _, _ => 64

/-! ### Candidates and clustering (extract_site_images.py:48-59, 216-249) -/

structure Candidate where
  id : Str
  filename : Str
  sourcePage : Str
  sourceImageUrl : Str
  alt : Str
  width : Nat
  height : Nat
  bytes : Nat
  phash : Str
  phashClusterId : Str := []
deriving DecidableEq

/-- Python tuple comparison `(a1, a2) >= (b1, b2)`. -/
def pyPairGe (a b : Nat × Nat) : Bool :=
  a.1 > b.1 || (a.1 = b.1 && a.2 ≥ b.2)

/-- The comparison tuple `(x.bytes, x.width * x.height)` of
    `choose_better` (lines 217-218). -/
def candScore (x : Candidate) : Nat × Nat := (x.bytes, x.width * x.height)

/-- `choose_better(a, b)`: `a if a_score >= b_score else b`. -/
def choose_better (a b : Candidate) : Candidate :=
  if pyPairGe (candScore a) (candScore b) then a else b

structure Cluster where
  id : Str
  rep : Candidate
  items : List Candidate
  best : Candidate
deriving DecidableEq

/-- `f"cluster-{n:03d}"`. -/
def clusterLabel (n : Nat) : Str :=
  "cluster-".toList ++ padZeros 3 (natDigits n)

/-- The matching test of the inner loop (line 228). -/
def clusterMatches (c : Candidate) (cl : Cluster) : Bool :=
  hamming_distance_hex c.phash cl.rep.phash ≤ PHASH_DISTANCE_THRESHOLD

/-- Joining an existing cluster (lines 236-242): set the candidate's
    cluster id, append it to `items`, update `best`. -/
def joinCluster (cl : Cluster) (c : Candidate) : Cluster :=
  let c' := { c with phashClusterId := cl.id }
  { cl with items := cl.items ++ [c'], best := choose_better cl.best c' }

/-- Creating a new cluster (lines 232-235); `total` is the current
    number of clusters. -/
def newCluster (total : Nat) (c : Candidate) : Cluster :=
  let cid := clusterLabel (total + 1)
  let c' := { c with phashClusterId := cid }
  { id := cid, rep := c', items := [c'], best := c' }

/-- The inner `for cluster in clusters` loop with its `break`:
    scan in creation order, join the first match, otherwise append. -/
def clusterScan (total : Nat) (c : Candidate) : List Cluster → List Cluster
  | [] => [newCluster total c]
  | cl :: rest =>
    if clusterMatches c cl then joinCluster cl c :: rest
    else cl :: clusterScan total c rest

/-- One iteration of the outer `for candidate in candidates` loop. -/
def clusterStep (cs : List Cluster) (c : Candidate) : List Cluster :=
  clusterScan cs.length c cs

def clusterFold : List Cluster → List Candidate → List Cluster
  | cs, [] => cs
  | cs, c :: rest => clusterFold (clusterStep cs c) rest

def clustersOf (l : List Candidate) : List Cluster := clusterFold [] l

/-- `cluster_candidates(candidates)` (lines 222-249): run the
    sequential clustering, then emit each cluster's `best` with its
    cluster id stamped. -/
def cluster_candidates (l : List Candidate) : List Candidate :=
  (clustersOf l).map (fun cl => { cl.best with phashClusterId := cl.id })

/-! ### Manifest ordering (extract_site_images.py:482-495) -/

/-- The sort key order `(x.phashClusterId, -x.bytes)` of line 494:
    cluster label ascending (Python string order), bytes descending. -/
def manifestKeyLe (a b : Candidate) : Prop :=
  pyStrLt a.phashClusterId b.phashClusterId = true ∨
    (a.phashClusterId = b.phashClusterId ∧ b.bytes ≤ a.bytes)

instance : DecidableRel manifestKeyLe := by
  unfold manifestKeyLe; infer_instance

/-- Python `sorted` is a stable comparison sort; `insertionSort` is
    one, so they agree as functions of the key order. -/
def manifestOrder (l : List Candidate) : List Candidate :=
  List.insertionSort manifestKeyLe l

/-- The deduplicated, sorted candidate list serialized into
    `manifest.json`. -/
def manifestOf (l : List Candidate) : List Candidate :=
  manifestOrder (cluster_candidates l)

def labelsOf (l : List Candidate) : List Str :=
  l.map (fun c => c.phashClusterId)

/-! ### Crawl model (extract_site_images.py:368-469)

The network, the HTML parser (BeautifulSoup with its `urljoin`
normalization), the image decoder (PIL) and the hash/digest libraries
are external collaborators; they appear as oracle fields of `Env`.
Everything else — the frontier loop, the visited set, the per-URL
accumulator, the filters and the retry logic — is the repository's own
code and is modelled directly. -/

/-- `requests.Response.ok`: false exactly for the 4xx/5xx range. -/
def pyOk (status : Nat) : Bool := !(400 ≤ status && status < 600)

structure PageResp where
  status : Nat
  contentType : Str
deriving DecidableEq

structure ImgResp where
  status : Nat
  content : List Nat
deriving DecidableEq

structure DecodedImage where
  width : Nat
  height : Nat
  format : Str
deriving DecidableEq

structure Env where
  /-- `rp.can_fetch(USER_AGENT, url)` -/
  robots : Str → Bool
  /-- `polite_get` on a page; `none` models `requests.RequestException` -/
  pageResp : Str → Option PageResp
  /-- the page's `<a href>` values after `normalize_url` absolutization
      (`None` results already dropped) -/
  pageLinks : Str → List Str
  /-- the `(src, alt)` pairs gathered by the soup scan, before the
      order-preserving de-dup of `extract_image_urls` -/
  pageImages : Str → List (Str × Str)
  /-- `polite_get` inside `download_image`, per attempt number -/
  imageResp : Str → Nat → Option ImgResp
  /-- `PIL.Image.open(...).load()`; `none` models a decode failure -/
  decode : List Nat → Option DecodedImage
  /-- `compute_phash(image)` -/
  phash : List Nat → Str
  /-- `hashlib.sha1(blob).hexdigest()[:16]` -/
  digest : List Nat → Str

structure Config where
  baseUrl : Str
  baseHostname : Str
  maxPages : Nat
  maxDepth : Nat
  allowedDomains : List Str
deriving DecidableEq

/-- `same_domain(url, base_hostname)` (lines 92-93). -/
def same_domain (url : Str) (baseHostname : Str) : Bool :=
  match pyHostname url with
  | some h => h = baseHostname
  | none => false

/-- `allowed_image_domain(url, allowed_domains)` (lines 96-103). -/
def allowed_image_domain (url : Str) (allowed : List Str) : Bool :=
  let host := strLower ((pyHostname url).getD [])
  allowed.any (fun d =>
    let dl := strLower d
    host = dl || List.isSuffixOf ('.' :: dl) host)

/-- `list(dict.fromkeys(l))`: order-preserving de-duplication. -/
def dedupAux {α : Type} [DecidableEq α] (seen : List α) : List α → List α
  | [] => []
  | x :: t => if x ∈ seen then dedupAux seen t else x :: dedupAux (x :: seen) t

def dedupKeepFirst {α : Type} [DecidableEq α] (l : List α) : List α :=
  dedupAux [] l

/-- `extract_links` (lines 153-166) applied to the absolutized hrefs:
    keep http/https same-domain links, canonicalize, de-dup. -/
def extract_links_model (hrefs : List Str) (baseHostname : Str) : List Str :=
  dedupKeepFirst
    ((hrefs.filter (fun u =>
        ((pyUrlparse u).scheme = "http".toList ∨
         (pyUrlparse u).scheme = "https".toList) ∧
        same_domain u baseHostname)).map canonical_page)

/-- The order-preserving by-src de-dup of `extract_image_urls`
    (lines 143-150). -/
def dedupImagesAux (seen : List Str) : List (Str × Str) → List (Str × Str)
  | [] => []
  | (src, alt) :: t =>
    if src ∈ seen then dedupImagesAux seen t
    else (src, alt) :: dedupImagesAux (src :: seen) t

def extract_image_urls_model (found : List (Str × Str)) : List (Str × Str) :=
  dedupImagesAux [] found

/-- `download_image` (lines 265-279), instrumented with the number of
    `polite_get` calls it makes; the argument list holds the remaining
    attempt numbers (`range(1, MAX_RETRIES+1)`). -/
def download_attempts (env : Env) (url : Str) : List Nat → Option (List Nat) × Nat
  | [] => (none, 0)
  | a :: rest =>
    match env.imageResp url a with
    | none =>
      let (r, n) := download_attempts env url rest
      (r, n + 1)
    | some resp =>
      if resp.status = 403 ∨ resp.status = 404 then (none, 1)
      else if 500 ≤ resp.status then
        let (r, n) := download_attempts env url rest
        (r, n + 1)
      else if ¬ pyOk resp.status then (none, 1)
      else (some resp.content, 1)

def download_image (env : Env) (url : Str) : Option (List Nat) × Nat :=
  download_attempts env url [1, 2, 3]

/-- The mutable state of `main`'s crawl loop.  `visited` models the
    Python *set* `visited_pages` (only membership matters; new
    elements are consed).  The three logs instrument the run:
    one `pageFetchLog` entry per page `polite_get`, one
    `downloadCallLog` entry per `download_image` call, one
    `imageFetchLog` entry per `polite_get` attempt inside
    `download_image`. -/
structure CrawlState where
  queue : List (Str × Nat)
  visited : List Str
  downloaded : List (Str × Candidate)
  pageFetchLog : List Str
  downloadCallLog : List Str
  imageFetchLog : List Str

/-- `image_url in downloaded_by_url`. -/
def assocHas (l : List (Str × Candidate)) (k : Str) : Bool :=
  l.any (fun p => p.1 = k)

/-- Number of occurrences of the URL `u` in a log. -/
def countU (u : Str) (l : List Str) : Nat :=
  l.countP (fun x => x = u)

/-- `ext_hint = Path(urlparse(image_url).path).suffix.lower()`
    (line 428). -/
def extHintOf (imageUrl : Str) : Str :=
  strLower (pathSuffix (pyUrlparse imageUrl).path)

/-- The cheap pre-filter of lines 429-430:
    `if ext_hint and not IMG_EXT_RE.search(image_url) and ext_hint != ".svg"`. -/
def precheckRejects (imageUrl : Str) : Bool :=
  extHintOf imageUrl ≠ [] ∧ ¬ imgExtSearch imageUrl ∧
    extHintOf imageUrl ≠ ".svg".toList

/-- The body of the inner image loop (lines 423-469). -/
def processImage (env : Env) (cfg : Config) (pageUrl : Str)
    (st : CrawlState) (im : Str × Str) : CrawlState :=
  let (imageUrl, alt) := im
  if assocHas st.downloaded imageUrl then st
  else if ¬ allowed_image_domain imageUrl cfg.allowedDomains then st
  else
    if precheckRejects imageUrl then st
    else
      let dl := download_image env imageUrl
      let st1 : CrawlState :=
        { st with downloadCallLog := st.downloadCallLog ++ [imageUrl],
                  imageFetchLog := st.imageFetchLog ++ List.replicate dl.2 imageUrl }
      match dl.1 with
      | none => st1
      | some blob =>
        if blob = [] then st1
        else
          match env.decode blob with
          | none => st1
          | some img =>
            let ext := guess_extension imageUrl img.format
            if should_skip imageUrl img.width img.height blob.length ext then st1
            else
              let digest := env.digest blob
              let cand : Candidate :=
                ⟨digest, digest ++ ext, pageUrl, imageUrl, alt,
                 img.width, img.height, blob.length, env.phash blob, []⟩
              { st1 with downloaded := st1.downloaded ++ [(imageUrl, cand)] }

/-- The body of the outer loop after a successful HTML fetch
    (lines 415-469). -/
def processPage (env : Env) (cfg : Config) (st : CrawlState)
    (pageUrl : Str) (depth : Nat) : CrawlState :=
  let st1 : CrawlState := { st with visited := pageUrl :: st.visited }
  let links := extract_links_model (env.pageLinks pageUrl) cfg.baseHostname
  let st2 : CrawlState :=
    { st1 with
      queue := st1.queue ++
        (links.filter (fun l => l ∉ st1.visited)).map (fun l => (l, depth + 1)) }
  (extract_image_urls_model (env.pageImages pageUrl)).foldl
    (processImage env cfg pageUrl) st2

/-- The crawl loop (lines 401-469), driven by fuel; the Python loop
    terminates because the visited bound strictly grows or the queue
    strictly shrinks, and every property proved below holds at every
    fuel value. -/
def crawlLoop (env : Env) (cfg : Config) : Nat → CrawlState → CrawlState
  | 0, st => st
  | fuel + 1, st =>
    match st.queue with
    | [] => st
    | (pageUrl, depth) :: rest =>
      if ¬ (st.visited.length < cfg.maxPages) then st
      else
        let st1 : CrawlState := { st with queue := rest }
        if pageUrl ∈ st1.visited then crawlLoop env cfg fuel st1
        else if cfg.maxDepth < depth then crawlLoop env cfg fuel st1
        else if ¬ env.robots pageUrl then crawlLoop env cfg fuel st1
        else
          let st2 : CrawlState :=
            { st1 with pageFetchLog := pageUrl :: st1.pageFetchLog }
          match env.pageResp pageUrl with
          | none =>
            crawlLoop env cfg fuel { st2 with visited := pageUrl :: st2.visited }
          | some resp =>
            if ¬ pyOk resp.status ∨
               ¬ strContains resp.contentType "text/html".toList then
              crawlLoop env cfg fuel { st2 with visited := pageUrl :: st2.visited }
            else
              crawlLoop env cfg fuel (processPage env cfg st2 pageUrl depth)

/-- `queue = deque([(canonical_page(base_url), 0)])`, empty state
    otherwise (lines 397-399). -/
def initState (cfg : Config) : CrawlState :=
  ⟨[(canonical_page cfg.baseUrl, 0)], [], [], [], [], []⟩

def runCrawl (env : Env) (cfg : Config) (fuel : Nat) : CrawlState :=
  crawlLoop env cfg fuel (initState cfg)

/-! ### Stale-file pruning (extract_site_images.py:473-480) -/

/-- The suffix set of line 475. -/
def pruneSuffixes : List Str :=
  [".jpg".toList, ".jpeg".toList, ".png".toList, ".webp".toList,
   ".gif".toList, ".bmp".toList, ".tiff".toList]

/-- Whether the pruning pass deletes the file `name` (a plain file in
    the output directory), given the surviving filenames `keep`. -/
def pruneDeletes (name : Str) (keep : List Str) : Bool :=
  strLower (pathSuffix name) ∈ pruneSuffixes && name ∉ keep

/-! ### Concrete instances used by witnesses and counterexamples -/

def hexZeros : Str := "0000000000000000".toList

/-- 50000 bytes, 900×600 — the smaller-bytes member of §8's
    representative-selection example. -/
def demoSmall : Candidate :=
  ⟨"a".toList, "a.jpg".toList, [], [], [], 900, 600, 50000, hexZeros, []⟩

/-- 80000 bytes, 640×480 — the larger-bytes member. -/
def demoBig : Candidate :=
  ⟨"b".toList, "b.jpg".toList, [], [], [], 640, 480, 80000, hexZeros, []⟩

/-- A candidate whose hash string is unparsable hex (`"zz"`), so its
    Hamming distance to anything — itself included — is 64. -/
def zzCand : Candidate := ⟨[], [], [], [], [], 1, 1, 1, ['z', 'z'], []⟩

/-- 1000 such candidates: clustering yields 1000 singleton clusters
    labelled `cluster-001` … `cluster-1000`. -/
def bigInput : List Candidate := List.replicate 1000 zzCand

/-- A candidate carrying a given cluster label, for the manifest-order
    example. -/
def demoLab (n : Nat) : Candidate := ⟨[], [], [], [], [], 1, 1, 10, [], clusterLabel n⟩

def primaryDemo : Str := "0123456789abcdef".toList

def pageH : Str := "http://h/".toList
def pageHB : Str := "http://h/b".toList
def imgH : Str := "http://h/i.jpg".toList

/-- An environment in which every request fails and every page is
    empty. -/
def idleEnv : Env :=
  ⟨fun _ => true, fun _ => none, fun _ => [], fun _ => [],
   fun _ _ => none, fun _ => none, fun _ => [], fun _ => []⟩

def demoCfg1 : Config :=
  ⟨"http://example.com".toList, "example.com".toList, 1, 3,
   ["example.com".toList]⟩

def cfgH : Config := ⟨"http://h".toList, ['h'], 5, 3, [['h']]⟩

/-- Two pages, both referencing the same image URL; the image
    downloads fine (status 200, one byte) but is rejected by the
    quality filter (1 byte < `MIN_BYTES`). -/
def envC3 : Env where
  robots := fun _ => true
  pageResp := fun _ => some ⟨200, "text/html".toList⟩
  pageLinks := fun u => if u = pageH then [pageHB] else []
  pageImages := fun u => if u = pageH ∨ u = pageHB then [(imgH, [])] else []
  imageResp := fun _ _ => some ⟨200, [0]⟩
  decode := fun _ => some ⟨700, 700, "jpeg".toList⟩
  phash := fun _ => hexZeros
  digest := fun _ => "deadbeefdeadbeef".toList

/-- Every page fetch returns a 500 server error. -/
def envC6 : Env :=
  { idleEnv with pageResp := fun _ => some ⟨500, "text/html".toList⟩ }

def url7 : Str := "https://agsafastpitch.com/a.php?img=b.jpg".toList

/-- Every image fetch returns a 500 server error. -/
def env500 : Env := { idleEnv with imageResp := fun _ _ => some ⟨500, [0]⟩ }

/-- Every image fetch returns a 404 client error. -/
def env404 : Env := { idleEnv with imageResp := fun _ _ => some ⟨404, [0]⟩ }

/-- A crawl state that already holds an accepted Candidate for
    `imgH`. -/
def stWithImg : CrawlState :=
  { initState cfgH with downloaded := [(imgH, demoBig)] }

def cfgAg : Config :=
  ⟨"https://agsafastpitch.com".toList, "agsafastpitch.com".toList, 5, 3,
   ["agsafastpitch.com".toList]⟩

/-! ### Order lemmas for the manifest sort key -/

theorem pyStrLt_trans : ∀ s t u : Str,
    pyStrLt s t = true → pyStrLt t u = true → pyStrLt s u = true
  | [], [], _, h1, _ => by simp [pyStrLt] at h1
  | [], _ :: _, [], _, h2 => by simp [pyStrLt] at h2
  | [], _ :: _, _ :: _, _, _ => rfl
  | _ :: _, [], _, h1, _ => by simp [pyStrLt] at h1
  | _ :: _, _ :: _, [], _, h2 => by simp [pyStrLt] at h2
  | a :: s, b :: t, c :: u, h1, h2 => by
    simp only [pyStrLt] at h1 h2 ⊢
    by_cases hab : a = b
    · subst hab
      by_cases hbc : a = c
      · subst hbc
        rw [if_pos rfl] at h1 h2 ⊢
        exact pyStrLt_trans s t u h1 h2
      · rw [if_pos rfl] at h1
        rw [if_neg hbc] at h2 ⊢
        exact h2
    · rw [if_neg hab] at h1
      by_cases hbc : b = c
      · subst hbc
        rw [if_neg hab]
        exact h1
      · rw [if_neg hbc] at h2
        have h3 : a < c :=
          lt_trans (of_decide_eq_true h1) (of_decide_eq_true h2)
        rw [if_neg (ne_of_lt h3)]
        exact decide_eq_true h3

theorem pyStrLt_total : ∀ s t : Str,
    s ≠ t → pyStrLt s t = true ∨ pyStrLt t s = true
  | [], [], h => absurd rfl h
  | [], _ :: _, _ => Or.inl rfl
  | _ :: _, [], _ => Or.inr rfl
  | a :: s, b :: t, h => by
    simp only [pyStrLt]
    by_cases hab : a = b
    · subst hab
      rw [if_pos rfl, if_pos rfl]
      exact pyStrLt_total s t (fun he => h (by rw [he]))
    · rw [if_neg hab, if_neg (fun e => hab e.symm)]
      rcases lt_or_gt_of_ne hab with hl | hg
      · exact Or.inl (decide_eq_true hl)
      · exact Or.inr (decide_eq_true hg)

instance : IsTrans Candidate manifestKeyLe where
  trans a b c hab hbc := by
    rcases hab with h1 | ⟨e1, b1⟩
    · rcases hbc with h2 | ⟨e2, _⟩
      · exact Or.inl (pyStrLt_trans _ _ _ h1 h2)
      · exact Or.inl (e2 ▸ h1)
    · rcases hbc with h2 | ⟨e2, b2⟩
      · exact Or.inl (e1 ▸ h2)
      · exact Or.inr ⟨e1.trans e2, le_trans b2 b1⟩

instance : IsTotal Candidate manifestKeyLe where
  total a b := by
    by_cases he : a.phashClusterId = b.phashClusterId
    · rcases Nat.le_total a.bytes b.bytes with h | h
      · exact Or.inr (Or.inr ⟨he.symm, h⟩)
      · exact Or.inl (Or.inr ⟨he, h⟩)
    · rcases pyStrLt_total _ _ he with h | h
      · exact Or.inl (Or.inl h)
      · exact Or.inr (Or.inl h)

/-! ### Lemmas about the clustering step -/

theorem clusterScan_noMatch : ∀ (cs : List Cluster) (total : Nat) (c : Candidate),
    (∀ cl ∈ cs, clusterMatches c cl = false) →
    clusterScan total c cs = cs ++ [newCluster total c]
  | [], _, _, _ => rfl
  | cl :: rest, total, c, h => by
    have h0 : clusterMatches c cl = false := h cl (List.mem_cons_self cl rest)
    simp only [clusterScan, h0, Bool.false_eq_true, if_false, List.cons_append,
      List.cons.injEq, true_and]
    exact clusterScan_noMatch rest total c
      (fun x hx => h x (List.mem_cons_of_mem _ hx))

theorem clusterStep_noMatch (cs : List Cluster) (c : Candidate)
    (h : ∀ cl ∈ cs, clusterMatches c cl = false) :
    clusterStep cs c = cs ++ [newCluster cs.length c] :=
  clusterScan_noMatch cs cs.length c h

theorem clusterScan_match : ∀ (cs : List Cluster) (total : Nat) (c : Candidate)
    (i : Nat) (hi : i < cs.length),
    clusterMatches c (cs.get ⟨i, hi⟩) = true →
    (∀ j (hj : j < i), clusterMatches c (cs.get ⟨j, Nat.lt_trans hj hi⟩) = false) →
    clusterScan total c cs = cs.set i (joinCluster (cs.get ⟨i, hi⟩) c)
  | [], _, _, i, hi, _, _ => absurd hi (by simp)
  | cl :: rest, total, c, 0, _, hm, _ => by
    simp only [List.get] at hm
    simp [clusterScan, hm]
  | cl :: rest, total, c, i + 1, hi, hm, hpre => by
    have h0 : clusterMatches c cl = false := by
      have := hpre 0 (Nat.succ_pos i)
      simpa using this
    simp only [clusterScan, h0, Bool.false_eq_true, if_false, List.set,
      List.cons.injEq, true_and]
    exact clusterScan_match rest total c i (Nat.lt_of_succ_lt_succ hi)
      (by simpa using hm)
      (fun j hj => by simpa using hpre (j + 1) (Nat.succ_lt_succ hj))

theorem clusterScan_length (total : Nat) (c : Candidate) :
    ∀ cs : List Cluster, cs.length ≤ (clusterScan total c cs).length
  | [] => by simp [clusterScan]
  | cl :: rest => by
    by_cases hm : clusterMatches c cl
    · simp [clusterScan, hm]
    · simp only [clusterScan, hm, Bool.false_eq_true, if_false, List.length_cons]
      exact Nat.succ_le_succ (clusterScan_length total c rest)

theorem clusterScan_rep_preserved :
    ∀ (cs : List Cluster) (total : Nat) (c : Candidate) (j : Nat),
      j < cs.length →
      ((clusterScan total c cs)[j]?).map Cluster.rep = (cs[j]?).map Cluster.rep
  | [], _, _, j, hj => absurd hj (by simp)
  | cl :: rest, total, c, j, hj => by
    by_cases hm : clusterMatches c cl = true
    · simp only [clusterScan]
      rw [if_pos hm]
      cases j with
      | zero => simp [joinCluster]
      | succ j => rfl
    · simp only [clusterScan]
      rw [if_neg hm]
      cases j with
      | zero => simp
      | succ j =>
        simpa using clusterScan_rep_preserved rest total c j
          (Nat.lt_of_succ_lt_succ hj)

theorem clusterFold_length_mono :
    ∀ (l : List Candidate) (cs : List Cluster),
      cs.length ≤ (clusterFold cs l).length
  | [], _ => le_refl _
  | c :: rest, cs =>
    le_trans (clusterScan_length cs.length c cs)
      (clusterFold_length_mono rest (clusterStep cs c))

theorem pyPairGe_refl (a : Nat × Nat) : pyPairGe a a = true := by
  simp [pyPairGe]

theorem pyPairGe_total (a b : Nat × Nat) :
    pyPairGe a b = true ∨ pyPairGe b a = true := by
  simp only [pyPairGe, Bool.or_eq_true, Bool.and_eq_true, decide_eq_true_eq]
  omega

theorem pyPairGe_trans (a b c : Nat × Nat) :
    pyPairGe a b = true → pyPairGe b c = true → pyPairGe a c = true := by
  simp only [pyPairGe, Bool.or_eq_true, Bool.and_eq_true, decide_eq_true_eq]
  omega

theorem choose_better_cases (a b : Candidate) :
    choose_better a b = a ∨ choose_better a b = b := by
  unfold choose_better
  split
  · exact Or.inl rfl
  · exact Or.inr rfl

theorem choose_better_ge (a b : Candidate) :
    pyPairGe (candScore (choose_better a b)) (candScore a) = true ∧
    pyPairGe (candScore (choose_better a b)) (candScore b) = true := by
  unfold choose_better
  by_cases h : pyPairGe (candScore a) (candScore b) = true
  · rw [if_pos h]
    exact ⟨pyPairGe_refl _, h⟩
  · rw [if_neg h]
    exact ⟨(pyPairGe_total (candScore a) (candScore b)).resolve_left h,
      pyPairGe_refl _⟩

theorem clusterScan_mem :
    ∀ (cs : List Cluster) (total : Nat) (c : Candidate) (x : Cluster),
      x ∈ clusterScan total c cs →
      x ∈ cs ∨ (∃ cl ∈ cs, x = joinCluster cl c) ∨ x = newCluster total c
  | [], total, c, x, h => by
    simp only [clusterScan, List.mem_singleton] at h
    exact Or.inr (Or.inr h)
  | cl :: rest, total, c, x, h => by
    by_cases hm : clusterMatches c cl = true
    · simp only [clusterScan] at h
      rw [if_pos hm] at h
      rcases List.mem_cons.mp h with h1 | h1
      · exact Or.inr (Or.inl ⟨cl, List.mem_cons_self cl rest, h1⟩)
      · exact Or.inl (List.mem_cons_of_mem _ h1)
    · simp only [clusterScan] at h
      rw [if_neg hm] at h
      rcases List.mem_cons.mp h with h1 | h1
      · exact Or.inl (h1 ▸ List.mem_cons_self cl rest)
      · rcases clusterScan_mem rest total c x h1 with h2 | ⟨cl', hcl', h2⟩ | h2
        · exact Or.inl (List.mem_cons_of_mem _ h2)
        · exact Or.inr (Or.inl ⟨cl', List.mem_cons_of_mem _ hcl', h2⟩)
        · exact Or.inr (Or.inr h2)

theorem joinCluster_best_inv (cl : Cluster) (c : Candidate)
    (h1 : cl.best ∈ cl.items)
    (h2 : ∀ x ∈ cl.items, pyPairGe (candScore cl.best) (candScore x) = true) :
    (joinCluster cl c).best ∈ (joinCluster cl c).items ∧
    ∀ x ∈ (joinCluster cl c).items,
      pyPairGe (candScore (joinCluster cl c).best) (candScore x) = true := by
  unfold joinCluster
  dsimp only
  constructor
  · rcases choose_better_cases cl.best { c with phashClusterId := cl.id }
      with hb | hb
    · rw [hb]
      exact List.mem_append_left _ h1
    · rw [hb]
      exact List.mem_append_right _ (List.mem_singleton_self _)
  · intro x hx
    rcases List.mem_append.mp hx with hx | hx
    · exact pyPairGe_trans _ _ _
        (choose_better_ge cl.best { c with phashClusterId := cl.id }).1
        (h2 x hx)
    · rw [List.mem_singleton.mp hx]
      exact (choose_better_ge cl.best { c with phashClusterId := cl.id }).2

theorem newCluster_best_inv (total : Nat) (c : Candidate) :
    (newCluster total c).best ∈ (newCluster total c).items ∧
    ∀ x ∈ (newCluster total c).items,
      pyPairGe (candScore (newCluster total c).best) (candScore x) = true := by
  unfold newCluster
  refine ⟨List.mem_singleton_self _, ?_⟩
  intro x hx
  rw [List.mem_singleton.mp hx]
  exact pyPairGe_refl _

theorem clusterFold_best_inv :
    ∀ (l : List Candidate) (cs : List Cluster),
      (∀ cl ∈ cs, cl.best ∈ cl.items ∧
        ∀ x ∈ cl.items, pyPairGe (candScore cl.best) (candScore x) = true) →
      ∀ cl ∈ clusterFold cs l, cl.best ∈ cl.items ∧
        ∀ x ∈ cl.items, pyPairGe (candScore cl.best) (candScore x) = true
  | [], cs, h => h
  | c :: rest, cs, h => by
    apply clusterFold_best_inv rest (clusterStep cs c)
    intro cl' hcl'
    rcases clusterScan_mem cs cs.length c cl' hcl' with h1 | ⟨cl, hcl, h1⟩ | h1
    · exact h cl' h1
    · rw [h1]
      exact joinCluster_best_inv cl c (h cl hcl).1 (h cl hcl).2
    · rw [h1]
      exact newCluster_best_inv cs.length c

theorem clusterFold_rep_preserved :
    ∀ (l : List Candidate) (cs : List Cluster) (j : Nat),
      j < cs.length →
      ((clusterFold cs l)[j]?).map Cluster.rep = (cs[j]?).map Cluster.rep
  | [], cs, j, hj => rfl
  | c :: rest, cs, j, hj => by
    have hstep : j < (clusterStep cs c).length :=
      lt_of_lt_of_le hj (clusterScan_length cs.length c cs)
    calc ((clusterFold cs (c :: rest))[j]?).map Cluster.rep
        = ((clusterFold (clusterStep cs c) rest)[j]?).map Cluster.rep := rfl
      _ = ((clusterStep cs c)[j]?).map Cluster.rep :=
          clusterFold_rep_preserved rest (clusterStep cs c) j hstep
      _ = (cs[j]?).map Cluster.rep :=
          clusterScan_rep_preserved cs cs.length c j hj

/-! ### Hash lemmas -/

theorem hamming_zz (r : Str) : hamming_distance_hex ['z', 'z'] r = 64 := by
  unfold hamming_distance_hex
  by_cases h : strStarts ['z', 'z'] ahashTag = true ∨ strStarts r ahashTag = true
  · rw [if_pos h]
    have hne : ¬(['z', 'z'] = r) := by
      intro he
      rcases h with h1 | h1
      · exact absurd h1 (by decide)
      · rw [← he] at h1
        exact absurd h1 (by decide)
    rw [if_neg hne]
  · rw [if_neg h]
    have hzz : hexParse ['z', 'z'] = none := by rfl
    rw [hzz]

theorem zz_matches_nothing (c : Candidate) (h : c.phash = ['z', 'z']) :
    ∀ cl : Cluster, clusterMatches c cl = false := by
  intro cl
  unfold clusterMatches
  rw [h, hamming_zz]
  rfl

theorem clusterFold_ids_zz :
    ∀ (l : List Candidate) (cs : List Cluster),
      (∀ c ∈ l, c.phash = ['z', 'z']) →
      (clusterFold cs l).map Cluster.id =
        cs.map Cluster.id ++ (List.range' (cs.length + 1) l.length).map clusterLabel
  | [], cs, _ => by simp [clusterFold]
  | c :: rest, cs, h => by
    have hc : c.phash = ['z', 'z'] := h c (List.mem_cons_self c rest)
    have hstep : clusterStep cs c = cs ++ [newCluster cs.length c] :=
      clusterStep_noMatch cs c (fun cl _ => zz_matches_nothing c hc cl)
    show (clusterFold (clusterStep cs c) rest).map Cluster.id = _
    rw [hstep, clusterFold_ids_zz rest (cs ++ [newCluster cs.length c])
      (fun x hx => h x (List.mem_cons_of_mem _ hx))]
    simp only [List.map_append, List.length_append, List.length_cons,
      List.length_nil, List.length_map, List.map_cons, List.map_nil,
      List.range'_succ, List.append_assoc, List.cons_append, List.nil_append,
      List.length_cons]
    rfl

theorem cluster_candidates_labels (l : List Candidate)
    (h : ∀ c ∈ l, c.phash = ['z', 'z']) :
    labelsOf (cluster_candidates l) = (List.range' 1 l.length).map clusterLabel := by
  have h0 : labelsOf (cluster_candidates l) = (clusterFold [] l).map Cluster.id := by
    unfold labelsOf cluster_candidates clustersOf
    rw [List.map_map]
    rfl
  rw [h0, clusterFold_ids_zz l [] h]
  rfl

theorem fallback_startsWith_ahash (pixels : List Nat) :
    strStarts (compute_phash_fallback pixels) ahashTag = true := by
  unfold compute_phash_fallback strStarts
  exact List.isPrefixOf_iff_prefix.mpr ⟨_, rfl⟩

theorem primary_not_ahash (p : Str) (hp : isPrimaryHash p) :
    strStarts p ahashTag = false := by
  cases h : strStarts p ahashTag with
  | false => rfl
  | true =>
    exfalso
    have hpre : ahashTag <+: p := List.isPrefixOf_iff_prefix.mp h
    have hh : 'h' ∈ p := hpre.subset (by decide)
    have := hp.2 'h' hh
    exact absurd this (by decide)

theorem hamming_cross (fb p : Str)
    (hfb : strStarts fb ahashTag = true)
    (hp : strStarts p ahashTag = false) :
    hamming_distance_hex fb p = 64 ∧ hamming_distance_hex p fb = 64 := by
  have hne : fb ≠ p := by
    intro he
    rw [he, hp] at hfb
    exact absurd hfb (by decide)
  constructor
  · unfold hamming_distance_hex
    rw [if_pos (Or.inl hfb), if_neg hne]
  · unfold hamming_distance_hex
    rw [if_pos (Or.inr hfb), if_neg (fun e => hne e.symm)]

/-! ### Crawl-loop lemmas -/

theorem dedupAux_subset {α : Type} [DecidableEq α] :
    ∀ (l : List α) (seen : List α) (x : α), x ∈ dedupAux seen l → x ∈ l
  | [], _, x, h => absurd h (List.not_mem_nil x)
  | a :: t, seen, x, h => by
    by_cases ha : a ∈ seen
    · rw [dedupAux, if_pos ha] at h
      exact List.mem_cons_of_mem _ (dedupAux_subset t seen x h)
    · rw [dedupAux, if_neg ha] at h
      rcases List.mem_cons.mp h with h1 | h1
      · exact h1 ▸ List.mem_cons_self a t
      · exact List.mem_cons_of_mem _ (dedupAux_subset t (a :: seen) x h1)

theorem extract_links_model_canonical (hrefs : List Str) (base : Str) :
    ∀ x ∈ extract_links_model hrefs base, ∃ u, x = canonical_page u := by
  intro x hx
  unfold extract_links_model dedupKeepFirst at hx
  have hx2 := dedupAux_subset _ [] x hx
  rcases List.mem_map.mp hx2 with ⟨u, _, he⟩
  exact ⟨u, he.symm⟩

theorem processImage_fields (env : Env) (cfg : Config) (pageUrl : Str)
    (st : CrawlState) (im : Str × Str) :
    (processImage env cfg pageUrl st im).visited = st.visited ∧
    (processImage env cfg pageUrl st im).queue = st.queue ∧
    (processImage env cfg pageUrl st im).pageFetchLog = st.pageFetchLog := by
  obtain ⟨imageUrl, alt⟩ := im
  unfold processImage
  dsimp only
  repeat' split
  all_goals exact ⟨rfl, rfl, rfl⟩

theorem foldImages_fields (env : Env) (cfg : Config) (pageUrl : Str) :
    ∀ (ims : List (Str × Str)) (st : CrawlState),
      (ims.foldl (processImage env cfg pageUrl) st).visited = st.visited ∧
      (ims.foldl (processImage env cfg pageUrl) st).queue = st.queue ∧
      (ims.foldl (processImage env cfg pageUrl) st).pageFetchLog = st.pageFetchLog
  | [], st => ⟨rfl, rfl, rfl⟩
  | im :: ims, st => by
    obtain ⟨h1, h2, h3⟩ := processImage_fields env cfg pageUrl st im
    obtain ⟨g1, g2, g3⟩ := foldImages_fields env cfg pageUrl ims
      (processImage env cfg pageUrl st im)
    exact ⟨g1.trans h1, g2.trans h2, g3.trans h3⟩

theorem processPage_fields (env : Env) (cfg : Config) (st : CrawlState)
    (pageUrl : Str) (depth : Nat) :
    (processPage env cfg st pageUrl depth).visited = pageUrl :: st.visited ∧
    (processPage env cfg st pageUrl depth).pageFetchLog = st.pageFetchLog ∧
    (∀ pd ∈ (processPage env cfg st pageUrl depth).queue,
        pd ∈ st.queue ∨ ∃ u, (pd : Str × Nat).1 = canonical_page u) := by
  unfold processPage
  dsimp only
  obtain ⟨h1, h2, h3⟩ := foldImages_fields env cfg pageUrl
    (extract_image_urls_model (env.pageImages pageUrl)) _
  refine ⟨h1, h3, ?_⟩
  intro pd hpd
  rw [h2] at hpd
  dsimp only at hpd
  rcases List.mem_append.mp hpd with h | h
  · exact Or.inl h
  · rcases List.mem_map.mp h with ⟨l, hl, he⟩
    refine Or.inr (extract_links_model_canonical _ _ l (List.mem_of_mem_filter hl) |>.imp ?_)
    intro u hu
    rw [← he]
    exact hu

/-- The crawl-loop invariant: the visited set stays within the
    max-pages bound, has no duplicates, holds only canonicalized URLs,
    and every page URL is fetched at most once (the fetch log has no
    duplicates and is contained in the visited set). -/
theorem crawlLoop_inv (env : Env) (cfg : Config) :
    ∀ (fuel : Nat) (st : CrawlState),
      st.visited.length ≤ cfg.maxPages →
      st.visited.Nodup →
      (∀ v ∈ st.visited, ∃ u, v = canonical_page u) →
      (∀ pd ∈ st.queue, ∃ u, (pd : Str × Nat).1 = canonical_page u) →
      st.pageFetchLog.Nodup →
      (∀ p ∈ st.pageFetchLog, p ∈ st.visited) →
      (crawlLoop env cfg fuel st).visited.length ≤ cfg.maxPages ∧
      (crawlLoop env cfg fuel st).visited.Nodup ∧
      (∀ v ∈ (crawlLoop env cfg fuel st).visited, ∃ u, v = canonical_page u) ∧
      (crawlLoop env cfg fuel st).pageFetchLog.Nodup ∧
      (∀ p ∈ (crawlLoop env cfg fuel st).pageFetchLog,
        p ∈ (crawlLoop env cfg fuel st).visited)
  | 0, st => fun h1 h2 h3 _ h5 h6 => ⟨h1, h2, h3, h5, h6⟩
  | fuel + 1, st => by
    intro h1 h2 h3 h4 h5 h6
    rcases hq : st.queue with _ | ⟨⟨pageUrl, depth⟩, rest⟩
    · simp only [crawlLoop, hq]
      exact ⟨h1, h2, h3, h5, h6⟩
    · have h4' : ∀ pd ∈ rest, ∃ u, (pd : Str × Nat).1 = canonical_page u :=
        fun pd hpd => h4 pd (hq ▸ List.mem_cons_of_mem _ hpd)
      have hhead : ∃ u, pageUrl = canonical_page u :=
        h4 (pageUrl, depth) (hq ▸ List.mem_cons_self _ _)
      simp only [crawlLoop, hq]
      by_cases hmax : st.visited.length < cfg.maxPages
      · rw [if_neg (not_not_intro hmax)]
        by_cases hvis : pageUrl ∈ st.visited
        · rw [if_pos hvis]
          exact crawlLoop_inv env cfg fuel _ h1 h2 h3 h4' h5 h6
        · rw [if_neg hvis]
          by_cases hdep : cfg.maxDepth < depth
          · rw [if_pos hdep]
            exact crawlLoop_inv env cfg fuel _ h1 h2 h3 h4' h5 h6
          · rw [if_neg hdep]
            by_cases hrob : env.robots pageUrl = true
            · rw [if_neg (by simpa using hrob)]
              have hlogNotMem : pageUrl ∉ st.pageFetchLog :=
                fun hc => hvis (h6 pageUrl hc)
              have hlen' : (pageUrl :: st.visited).length ≤ cfg.maxPages := by
                simpa using hmax
              have hnodup' : (pageUrl :: st.visited).Nodup :=
                List.nodup_cons.mpr ⟨hvis, h2⟩
              have hcan' : ∀ v ∈ pageUrl :: st.visited, ∃ u, v = canonical_page u := by
                intro v hv
                rcases List.mem_cons.mp hv with h | h
                · exact h ▸ hhead
                · exact h3 v h
              have hlog' : (pageUrl :: st.pageFetchLog).Nodup :=
                List.nodup_cons.mpr ⟨hlogNotMem, h5⟩
              have hsub' : ∀ p ∈ pageUrl :: st.pageFetchLog,
                  p ∈ pageUrl :: st.visited := by
                intro p hp
                rcases List.mem_cons.mp hp with h | h
                · exact h ▸ List.mem_cons_self _ _
                · exact List.mem_cons_of_mem _ (h6 p h)
              rcases hresp : env.pageResp pageUrl with _ | resp
              · exact crawlLoop_inv env cfg fuel _ hlen' hnodup' hcan' h4' hlog' hsub'
              · dsimp only
                by_cases hbad : ¬ pyOk resp.status = true ∨
                    ¬ strContains resp.contentType "text/html".toList = true
                · rw [if_pos hbad]
                  exact crawlLoop_inv env cfg fuel _ hlen' hnodup' hcan' h4' hlog' hsub'
                · rw [if_neg hbad]
                  obtain ⟨p1, p2, p3⟩ := processPage_fields env cfg
                    { st with queue := rest,
                              pageFetchLog := pageUrl :: st.pageFetchLog }
                    pageUrl depth
                  refine crawlLoop_inv env cfg fuel _ ?_ ?_ ?_ ?_ ?_ ?_
                  · rw [p1]; exact hlen'
                  · rw [p1]; exact hnodup'
                  · rw [p1]; exact hcan'
                  · intro pd hpd
                    rcases p3 pd hpd with h | h
                    · exact h4' pd h
                    · exact h
                  · rw [p2]; exact hlog'
                  · intro p hp
                    rw [p2] at hp
                    rw [p1]
                    exact hsub' p hp
            · rw [if_pos (by simpa using hrob)]
              exact crawlLoop_inv env cfg fuel _ h1 h2 h3 h4' h5 h6
      · rw [if_pos hmax]
        exact ⟨h1, h2, h3, h5, h6⟩

/-! ### Download-count lemmas (for the fetched-at-most-once claim) -/

theorem countU_append (u : Str) (l1 l2 : List Str) :
    countU u (l1 ++ l2) = countU u l1 + countU u l2 :=
  List.countP_append _ _ _

theorem countU_singleton_ne (u x : Str) (h : x ≠ u) : countU u [x] = 0 := by
  simp [countU, h]

theorem nodup_countU_le_one (u : Str) :
    ∀ l : List Str, l.Nodup → countU u l ≤ 1
  | [], _ => by simp [countU]
  | x :: t, h => by
    obtain ⟨hx, ht⟩ := List.nodup_cons.mp h
    have ih := nodup_countU_le_one u t ht
    unfold countU at ih ⊢
    rw [List.countP_cons]
    by_cases hxu : x = u
    · have h0 : t.countP (fun y => decide (y = u)) = 0 := by
        rw [List.countP_eq_zero]
        intro a ha
        simp only [decide_eq_true_eq]
        intro he
        exact hx (show x ∈ t by rw [hxu]; exact he ▸ ha)
      simp [hxu, h0]
    · simpa [hxu] using ih

theorem processImage_skip (env : Env) (cfg : Config) (pageUrl : Str)
    (st : CrawlState) (im : Str × Str)
    (h : assocHas st.downloaded im.1 = true) :
    processImage env cfg pageUrl st im = st := by
  obtain ⟨imageUrl, alt⟩ := im
  unfold processImage
  dsimp only at h ⊢
  rw [if_pos h]

theorem processImage_count_le (env : Env) (cfg : Config) (pageUrl : Str)
    (st : CrawlState) (im : Str × Str) (u : Str) :
    countU u (processImage env cfg pageUrl st im).downloadCallLog ≤
      countU u st.downloadCallLog + countU u [im.1] := by
  obtain ⟨imageUrl, alt⟩ := im
  unfold processImage
  dsimp only
  repeat' split
  all_goals
    first
      | omega
      | (simp only [countU_append]; omega)

theorem processImage_count_other (env : Env) (cfg : Config) (pageUrl : Str)
    (st : CrawlState) (im : Str × Str) (u : Str) (h : im.1 ≠ u) :
    countU u (processImage env cfg pageUrl st im).downloadCallLog =
      countU u st.downloadCallLog := by
  obtain ⟨imageUrl, alt⟩ := im
  have h0 : countU u [imageUrl] = 0 := countU_singleton_ne u imageUrl h
  unfold processImage
  dsimp only
  repeat' split
  all_goals
    first
      | rfl
      | (simp only [countU_append, h0]; omega)

theorem processImage_downloaded_mono (env : Env) (cfg : Config)
    (pageUrl : Str) (st : CrawlState) (im : Str × Str) (u : Str)
    (h : assocHas st.downloaded u = true) :
    assocHas (processImage env cfg pageUrl st im).downloaded u = true := by
  obtain ⟨imageUrl, alt⟩ := im
  unfold processImage
  dsimp only
  repeat' split
  all_goals
    first
      | exact h
      | (simp only [assocHas, List.any_append, Bool.or_eq_true] at h ⊢
         exact Or.inl h)

theorem dedupImages_fst_nodup :
    ∀ (l : List (Str × Str)) (seen : List Str),
      (List.map Prod.fst (dedupImagesAux seen l)).Nodup ∧
      ∀ x ∈ dedupImagesAux seen l, (x : Str × Str).1 ∉ seen
  | [], _ => ⟨List.nodup_nil, by intro x hx; cases hx⟩
  | (src, alt) :: t, seen => by
    by_cases hs : src ∈ seen
    · rw [dedupImagesAux, if_pos hs]
      exact dedupImages_fst_nodup t seen
    · rw [dedupImagesAux, if_neg hs]
      obtain ⟨ih1, ih2⟩ := dedupImages_fst_nodup t (src :: seen)
      constructor
      · rw [List.map_cons]
        refine List.nodup_cons.mpr ⟨?_, ih1⟩
        intro hc
        rcases List.mem_map.mp hc with ⟨x, hx, he⟩
        exact ih2 x hx (he ▸ List.mem_cons_self _ _)
      · intro x hx
        rcases List.mem_cons.mp hx with h | h
        · rw [h]
          exact hs
        · exact fun hc => ih2 x h (List.mem_cons_of_mem _ hc)

theorem foldImages_count_le (env : Env) (cfg : Config) (pageUrl : Str) (u : Str) :
    ∀ (ims : List (Str × Str)) (st : CrawlState),
      countU u ((ims.foldl (processImage env cfg pageUrl) st).downloadCallLog) ≤
        countU u st.downloadCallLog + countU u (ims.map Prod.fst)
  | [], st => by simp [countU]
  | im :: ims, st => by
    have h1 := foldImages_count_le env cfg pageUrl u ims
      (processImage env cfg pageUrl st im)
    have h2 := processImage_count_le env cfg pageUrl st im u
    simp only [List.foldl_cons]
    by_cases him : im.1 = u
    · have e1 : countU u [im.1] = 1 := by simp [countU, him]
      have e2 : countU u ((im :: ims).map Prod.fst) =
          countU u (ims.map Prod.fst) + 1 := by
        simp [countU, List.countP_cons, him]
      omega
    · have e1 : countU u [im.1] = 0 := countU_singleton_ne u im.1 him
      have e2 : countU u ((im :: ims).map Prod.fst) =
          countU u (ims.map Prod.fst) := by
        simp [countU, List.countP_cons, him]
      omega

theorem foldImages_frozen (env : Env) (cfg : Config) (pageUrl : Str) (u : Str) :
    ∀ (ims : List (Str × Str)) (st : CrawlState),
      assocHas st.downloaded u = true →
      countU u ((ims.foldl (processImage env cfg pageUrl) st).downloadCallLog) =
        countU u st.downloadCallLog ∧
      assocHas ((ims.foldl (processImage env cfg pageUrl) st).downloaded) u = true
  | [], st, h => ⟨rfl, h⟩
  | im :: ims, st, h => by
    by_cases him : im.1 = u
    · have hskip : processImage env cfg pageUrl st im = st :=
        processImage_skip env cfg pageUrl st im (by rw [him]; exact h)
      simp only [List.foldl_cons, hskip]
      exact foldImages_frozen env cfg pageUrl u ims st h
    · have hc := processImage_count_other env cfg pageUrl st im u him
      have hm := processImage_downloaded_mono env cfg pageUrl st im u h
      obtain ⟨g1, g2⟩ := foldImages_frozen env cfg pageUrl u ims
        (processImage env cfg pageUrl st im) hm
      exact ⟨by rw [List.foldl_cons, g1, hc], by rw [List.foldl_cons]; exact g2⟩

theorem processPage_count_le (env : Env) (cfg : Config) (st : CrawlState)
    (pageUrl : Str) (depth : Nat) (u : Str) :
    countU u (processPage env cfg st pageUrl depth).downloadCallLog ≤
      countU u st.downloadCallLog + 1 := by
  have h2 : countU u
      ((extract_image_urls_model (env.pageImages pageUrl)).map Prod.fst) ≤ 1 :=
    nodup_countU_le_one u _ (dedupImages_fst_nodup (env.pageImages pageUrl) []).1
  unfold processPage
  dsimp only
  refine le_trans (foldImages_count_le env cfg pageUrl u _ _) ?_
  dsimp only
  omega

theorem processPage_frozen (env : Env) (cfg : Config) (st : CrawlState)
    (pageUrl : Str) (depth : Nat) (u : Str)
    (h : assocHas st.downloaded u = true) :
    countU u (processPage env cfg st pageUrl depth).downloadCallLog =
      countU u st.downloadCallLog ∧
    assocHas (processPage env cfg st pageUrl depth).downloaded u = true := by
  unfold processPage
  dsimp only
  exact foldImages_frozen env cfg pageUrl u
    (extract_image_urls_model (env.pageImages pageUrl)) _ h

theorem crawlLoop_frozen (env : Env) (cfg : Config) (u : Str) :
    ∀ (fuel : Nat) (st : CrawlState),
      assocHas st.downloaded u = true →
      countU u (crawlLoop env cfg fuel st).downloadCallLog =
        countU u st.downloadCallLog ∧
      assocHas (crawlLoop env cfg fuel st).downloaded u = true
  | 0, st, h => ⟨rfl, h⟩
  | fuel + 1, st, h => by
    rcases hq : st.queue with _ | ⟨⟨pageUrl, depth⟩, rest⟩
    · simp [crawlLoop, hq, h]
    · simp only [crawlLoop, hq]
      by_cases hmax : st.visited.length < cfg.maxPages
      · rw [if_neg (not_not_intro hmax)]
        by_cases hvis : pageUrl ∈ st.visited
        · rw [if_pos hvis]
          exact crawlLoop_frozen env cfg u fuel _ h
        · rw [if_neg hvis]
          by_cases hdep : cfg.maxDepth < depth
          · rw [if_pos hdep]
            exact crawlLoop_frozen env cfg u fuel _ h
          · rw [if_neg hdep]
            by_cases hrob : env.robots pageUrl = true
            · rw [if_neg (by simpa using hrob)]
              rcases hresp : env.pageResp pageUrl with _ | resp
              · exact crawlLoop_frozen env cfg u fuel _ h
              · dsimp only
                by_cases hbad : ¬ pyOk resp.status = true ∨
                    ¬ strContains resp.contentType "text/html".toList = true
                · rw [if_pos hbad]
                  exact crawlLoop_frozen env cfg u fuel _ h
                · rw [if_neg hbad]
                  obtain ⟨p1, p2⟩ := processPage_frozen env cfg
                    { st with queue := rest,
                              pageFetchLog := pageUrl :: st.pageFetchLog }
                    pageUrl depth u h
                  obtain ⟨g1, g2⟩ := crawlLoop_frozen env cfg u fuel _ p2
                  exact ⟨g1.trans p1, g2⟩
            · rw [if_pos (by simpa using hrob)]
              exact crawlLoop_frozen env cfg u fuel _ h
      · rw [if_pos hmax]
        exact ⟨rfl, h⟩

/-! ### Claim theorems -/

/-- C1: clustering proceeds sequentially over the candidates in input
    order (`cluster_candidates` folds `clusterStep` left to right, a
    pure function, hence deterministic for a fixed input order); each
    candidate is compared against the existing clusters' representative
    hashes in creation order and joins the first cluster whose
    representative is within Hamming distance 6
    (`PHASH_DISTANCE_THRESHOLD`), receiving that cluster's id;
    otherwise it starts a new cluster with itself as the comparison
    representative; joining never changes a cluster's representative,
    and representatives persist unchanged through the whole fold. -/
theorem claim_C1 (cs : List Cluster) (c : Candidate) :
    (∀ i (hi : i < cs.length),
        clusterMatches c (cs.get ⟨i, hi⟩) = true →
        (∀ j (hj : j < i), clusterMatches c (cs.get ⟨j, Nat.lt_trans hj hi⟩) = false) →
        clusterStep cs c = cs.set i (joinCluster (cs.get ⟨i, hi⟩) c)) ∧
    ((∀ cl ∈ cs, clusterMatches c cl = false) →
        clusterStep cs c = cs ++ [newCluster cs.length c]) ∧
    (∀ cl, (joinCluster cl c).rep = cl.rep ∧ (joinCluster cl c).id = cl.id ∧
        (joinCluster cl c).items = cl.items ++ [{ c with phashClusterId := cl.id }]) ∧
    (∀ n, (newCluster n c).rep = { c with phashClusterId := clusterLabel (n + 1) } ∧
        (newCluster n c).id = clusterLabel (n + 1)) ∧
    (∀ l j, j < cs.length →
        ((clusterFold cs l)[j]?).map Cluster.rep = (cs[j]?).map Cluster.rep) ∧
    (∀ cl, clusterMatches c cl =
        decide (hamming_distance_hex c.phash cl.rep.phash ≤ PHASH_DISTANCE_THRESHOLD)) := by
  refine ⟨?_, ?_, ?_, ?_, ?_, ?_⟩
  · exact fun i hi hm hpre => clusterScan_match cs cs.length c i hi hm hpre
  · exact clusterStep_noMatch cs c
  · exact fun cl => ⟨rfl, rfl, rfl⟩
  · exact fun n => ⟨rfl, rfl⟩
  · exact fun l j hj => clusterFold_rep_preserved l cs j hj
  · exact fun cl => rfl

/-- C1 witness: a matching candidate joins the one existing cluster;
    with no clusters, a new cluster is created. -/
theorem claim_C1_witness :
    clusterStep [newCluster 0 demoSmall] demoBig =
      [joinCluster (newCluster 0 demoSmall) demoBig] ∧
    clusterStep [] demoBig = [newCluster 0 demoBig] := by
  constructor
  · exact (claim_C1 [newCluster 0 demoSmall] demoBig).1 0 (by decide)
      (by decide) (fun j hj => absurd hj (Nat.not_lt_zero j))
  · exact (claim_C1 [] demoBig).2.1 (fun cl hcl => absurd hcl (List.not_mem_nil cl))

/-- C2: `choose_better` is the Python tuple comparison
    `(bytes, width*height) >=` — larger byte size wins, pixel area
    breaks ties (the first argument, the incumbent best, wins exact
    ties); every cluster's kept representative (`best`) is a member
    that is `>=` all members under this lexicographic descending
    order; and on the §8 example (50000 bytes 900×600 vs 80000 bytes
    640×480) the 80000-byte item becomes the representative. -/
theorem claim_C2 :
    (∀ a b : Candidate,
        choose_better a b =
          if pyPairGe (candScore a) (candScore b) = true then a else b) ∧
    (∀ a b : Candidate,
        pyPairGe (candScore a) (candScore b) = true ↔
          (b.bytes < a.bytes ∨
            (a.bytes = b.bytes ∧ b.width * b.height ≤ a.width * a.height))) ∧
    (∀ l : List Candidate, ∀ cl ∈ clustersOf l, cl.best ∈ cl.items ∧
        ∀ x ∈ cl.items, pyPairGe (candScore cl.best) (candScore x) = true) ∧
    ((cluster_candidates [demoSmall, demoBig]).map Candidate.bytes = [80000]) := by
  refine ⟨fun a b => rfl, ?_, ?_, by decide⟩
  · intro a b
    simp only [pyPairGe, candScore, Bool.or_eq_true, Bool.and_eq_true,
      decide_eq_true_eq]
  · intro l cl hcl
    exact clusterFold_best_inv l [] (by intro cl' h; cases h) cl hcl

/-- C2 witness: the single cluster formed from the two-member example
    satisfies the best-is-maximum property. -/
theorem claim_C2_witness :
    joinCluster (newCluster 0 demoSmall) demoBig ∈
      clustersOf [demoSmall, demoBig] ∧
    ((joinCluster (newCluster 0 demoSmall) demoBig).best ∈
      (joinCluster (newCluster 0 demoSmall) demoBig).items ∧
     ∀ x ∈ (joinCluster (newCluster 0 demoSmall) demoBig).items,
       pyPairGe (candScore (joinCluster (newCluster 0 demoSmall) demoBig).best)
         (candScore x) = true) := by
  have hmem : joinCluster (newCluster 0 demoSmall) demoBig ∈
      clustersOf [demoSmall, demoBig] := by decide
  exact ⟨hmem, (claim_C2).2.2.1 [demoSmall, demoBig] _ hmem⟩

/-- C4: a fallback (`ahash-`-tagged) fingerprint and a primary
    (hexadecimal `imagehash`) fingerprint are at Hamming distance 64 in
    both directions — maximal, strictly above the clustering threshold
    6 — so a fallback-hashed candidate never joins any cluster whose
    representative carries a primary hash (it always opens a new
    cluster), and vice versa. -/
theorem claim_C4 (pixels : List Nat) (_hlen : pixels.length = 64)
    (p : Str) (hp : isPrimaryHash p) :
    hamming_distance_hex (compute_phash_fallback pixels) p = 64 ∧
    hamming_distance_hex p (compute_phash_fallback pixels) = 64 ∧
    PHASH_DISTANCE_THRESHOLD < 64 ∧
    (∀ (cs : List Cluster) (c : Candidate),
        (∀ cl ∈ cs, cl.rep.phash = p) →
        c.phash = compute_phash_fallback pixels →
        clusterStep cs c = cs ++ [newCluster cs.length c]) ∧
    (∀ (cs : List Cluster) (c : Candidate),
        (∀ cl ∈ cs, cl.rep.phash = compute_phash_fallback pixels) →
        c.phash = p →
        clusterStep cs c = cs ++ [newCluster cs.length c]) := by
  have hfb := fallback_startsWith_ahash pixels
  have hpn := primary_not_ahash p hp
  obtain ⟨d1, d2⟩ := hamming_cross (compute_phash_fallback pixels) p hfb hpn
  refine ⟨d1, d2, by decide, ?_, ?_⟩
  · intro cs c hreps hc
    apply clusterStep_noMatch
    intro cl hcl
    unfold clusterMatches
    rw [hc, hreps cl hcl, d1]
    rfl
  · intro cs c hreps hc
    apply clusterStep_noMatch
    intro cl hcl
    unfold clusterMatches
    rw [hc, hreps cl hcl, d2]
    rfl

/-- C4 witness: the all-zero 8×8 thumbnail's fallback hash against a
    concrete primary hash. -/
theorem claim_C4_witness :
    (List.replicate 64 0).length = 64 ∧ isPrimaryHash primaryDemo ∧
    hamming_distance_hex (compute_phash_fallback (List.replicate 64 0))
      primaryDemo = 64 :=
  ⟨by decide, by decide,
    (claim_C4 (List.replicate 64 0) (by decide) primaryDemo (by decide)).1⟩

/-- C5 (amended): the manifest is sorted by the key
    `(phashClusterId, -bytes)` — cluster label ascending in Python
    string (lexicographic) order, byte size descending within equal
    labels — so labels appear in ascending *lexicographic* order, and
    the `cluster-001`/`cluster-003`/`cluster-002` example serializes
    as 001, 002, 003.  Because labels are zero-padded to only three
    digits, lexicographic order agrees with numeric cluster-creation
    order only while all labels are equally wide (up to 999 clusters);
    the counterexample shows it fails at 1000. -/
theorem claim_C5 :
    (∀ l, List.Sorted manifestKeyLe (manifestOf l)) ∧
    (∀ l, List.Pairwise (fun a b : Str => pyStrLt a b = true ∨ a = b)
        (labelsOf (manifestOf l))) ∧
    labelsOf (manifestOrder [demoLab 1, demoLab 3, demoLab 2]) =
      [clusterLabel 1, clusterLabel 2, clusterLabel 3] := by
  have hs : ∀ l, List.Sorted manifestKeyLe (manifestOf l) := fun l =>
    List.sorted_insertionSort manifestKeyLe (cluster_candidates l)
  refine ⟨hs, ?_, by decide⟩
  intro l
  unfold labelsOf
  rw [List.pairwise_map]
  exact (hs l).imp (fun h => h.imp_right And.left)

/-- C9: for any environment, configuration with max-pages ≥ 1 and any
    amount of fuel, the crawl's visited set has at most max-pages
    elements, all distinct, each of them the image of `canonical_page`
    (scheme + host + path, query and fragment stripped) — seed and
    extracted links are canonicalized before the visited-set check —
    and no page URL is ever fetched twice (the page fetch log is
    duplicate-free). -/
theorem claim_C9 (env : Env) (cfg : Config) (fuel : Nat)
    (_hN : 1 ≤ cfg.maxPages) :
    (runCrawl env cfg fuel).visited.length ≤ cfg.maxPages ∧
    (runCrawl env cfg fuel).visited.Nodup ∧
    (∀ v ∈ (runCrawl env cfg fuel).visited, ∃ u, v = canonical_page u) ∧
    (runCrawl env cfg fuel).pageFetchLog.Nodup := by
  obtain ⟨g1, g2, g3, g4, _⟩ := crawlLoop_inv env cfg fuel (initState cfg)
    (by simp [initState])
    (by simp [initState])
    (by simp [initState])
    (by
      intro pd hpd
      simp only [initState, List.mem_singleton] at hpd
      exact ⟨cfg.baseUrl, by rw [hpd]⟩)
    (by simp [initState])
    (by simp [initState])
  exact ⟨g1, g2, g3, g4⟩

/-- C9 witness at a concrete environment and configuration. -/
theorem claim_C9_witness :
    1 ≤ demoCfg1.maxPages ∧
    ((runCrawl idleEnv demoCfg1 1).visited.length ≤ demoCfg1.maxPages ∧
     (runCrawl idleEnv demoCfg1 1).visited.Nodup ∧
     (∀ v ∈ (runCrawl idleEnv demoCfg1 1).visited, ∃ u, v = canonical_page u) ∧
     (runCrawl idleEnv demoCfg1 1).pageFetchLog.Nodup) :=
  ⟨by decide, claim_C9 idleEnv demoCfg1 1 (by decide)⟩

/-- C10: a dequeued page that passes the budget, visited, depth and
    robots checks but whose fetch returns a network error, a non-OK
    status, or a non-HTML content type is added to the visited set
    (consuming one unit of the max-pages budget) and contributes one
    fetch-log entry; the queue only loses its head and the downloads
    are untouched — no links or images are extracted from it. -/
theorem claim_C10 (env : Env) (cfg : Config) (fuel : Nat) (st : CrawlState)
    (pageUrl : Str) (depth : Nat) (rest : List (Str × Nat))
    (hq : st.queue = (pageUrl, depth) :: rest)
    (hmax : st.visited.length < cfg.maxPages)
    (hvis : pageUrl ∉ st.visited)
    (hdep : depth ≤ cfg.maxDepth)
    (hrob : env.robots pageUrl = true)
    (hbad : env.pageResp pageUrl = none ∨
      ∃ resp, env.pageResp pageUrl = some resp ∧
        (pyOk resp.status = false ∨
         strContains resp.contentType "text/html".toList = false)) :
    crawlLoop env cfg (fuel + 1) st =
      crawlLoop env cfg fuel
        { st with queue := rest, visited := pageUrl :: st.visited,
                  pageFetchLog := pageUrl :: st.pageFetchLog } := by
  simp only [crawlLoop, hq]
  rw [if_neg (not_not_intro hmax), if_neg hvis,
    if_neg (by omega : ¬ cfg.maxDepth < depth), if_neg (by simpa using hrob)]
  rcases hbad with hnone | ⟨resp, hsome, hb⟩
  · rw [hnone]
  · rw [hsome]
    dsimp only
    have hcond : ¬ pyOk resp.status = true ∨
        ¬ strContains resp.contentType "text/html".toList = true := by
      rcases hb with h | h
      · exact Or.inl (by rw [h]; simp)
      · exact Or.inr (by rw [h]; simp)
    rw [if_pos hcond]

/-- C10 witness: the concrete 500-status environment consumes the
    seed page without extracting anything. -/
theorem claim_C10_witness :
    (initState cfgH).queue = (pageH, 0) :: [] ∧
    (initState cfgH).visited.length < cfgH.maxPages ∧
    pageH ∉ (initState cfgH).visited ∧
    (0 : Nat) ≤ cfgH.maxDepth ∧
    envC6.robots pageH = true ∧
    crawlLoop envC6 cfgH 1 (initState cfgH) =
      crawlLoop envC6 cfgH 0
        { initState cfgH with queue := [], visited := pageH :: (initState cfgH).visited,
                              pageFetchLog := pageH :: (initState cfgH).pageFetchLog } :=
  ⟨by decide, by decide, by decide, by decide, by decide,
    claim_C10 envC6 cfgH 0 (initState cfgH) pageH 0 [] (by decide) (by decide)
      (by decide) (by decide) (by decide)
      (Or.inr ⟨⟨500, "text/html".toList⟩, rfl, Or.inl (by decide)⟩)⟩

/-- C3 (amended): during one page's processing a URL is downloaded at
    most once (the per-page image list is de-duplicated by source URL);
    a URL that already has an accepted Candidate in the accumulator is
    skipped entirely; and once a URL has produced an accepted Candidate
    it is never downloaded again for the rest of the run.  (A URL whose
    download fails or whose image is rejected is *not* recorded and may
    be downloaded again from a later page — see the counterexample.) -/
theorem claim_C3 :
    (∀ (env : Env) (cfg : Config) (st : CrawlState) (pageUrl : Str)
        (depth : Nat) (u : Str),
        countU u (processPage env cfg st pageUrl depth).downloadCallLog ≤
          countU u st.downloadCallLog + 1) ∧
    (∀ (env : Env) (cfg : Config) (pageUrl : Str) (st : CrawlState)
        (im : Str × Str), assocHas st.downloaded im.1 = true →
        processImage env cfg pageUrl st im = st) ∧
    (∀ (env : Env) (cfg : Config) (fuel : Nat) (st : CrawlState) (u : Str),
        assocHas st.downloaded u = true →
        countU u (crawlLoop env cfg fuel st).downloadCallLog =
          countU u st.downloadCallLog ∧
        assocHas (crawlLoop env cfg fuel st).downloaded u = true) :=
  ⟨processPage_count_le, processImage_skip,
    fun env cfg fuel st u h => crawlLoop_frozen env cfg u fuel st h⟩

/-- C3 witness: a URL that already has an accepted Candidate is not
    downloaded again by a run that references it from two pages. -/
theorem claim_C3_witness :
    assocHas stWithImg.downloaded imgH = true ∧
    (countU imgH (crawlLoop envC3 cfgH 5 stWithImg).downloadCallLog =
      countU imgH stWithImg.downloadCallLog ∧
     assocHas (crawlLoop envC3 cfgH 5 stWithImg).downloaded imgH = true) :=
  ⟨by decide, (claim_C3).2.2 envC3 cfgH 5 stWithImg imgH (by decide)⟩

/-- C3 counterexample: two pages reference the same image URL; the
    download succeeds both times (status 200) but the image is rejected
    by the quality filter (1 byte < 40 KiB), so the URL is never
    recorded and `download_image` — and a network GET — runs twice for
    it, refuting fetched-at-most-once for rejected URLs. -/
theorem claim_C3_counterexample :
    (runCrawl envC3 cfgH 5).downloadCallLog = [imgH, imgH] ∧
    (runCrawl envC3 cfgH 5).imageFetchLog = [imgH, imgH] ∧
    (runCrawl envC3 cfgH 5).downloaded = [] := by
  exact ⟨by decide, by decide, by decide⟩

/-- C6 (amended): a page fetch is attempted exactly once — the fetch
    log never repeats a URL, so no page fetch is ever retried,
    whatever the failure; retries exist only for *image* downloads:
    with persistent network errors or persistent 5xx responses
    `download_image` makes exactly `MAX_RETRIES = 3` attempts (with
    increasing sleeps, not modelled) and gives up, while a 403/404 on
    the first attempt aborts immediately after 1 attempt. -/
theorem claim_C6 :
    (∀ (env : Env) (cfg : Config) (fuel : Nat),
        (runCrawl env cfg fuel).pageFetchLog.Nodup) ∧
    (∀ (env : Env) (url : Str), (∀ a, env.imageResp url a = none) →
        download_image env url = (none, 3)) ∧
    (∀ (env : Env) (url : Str) (resp : ImgResp),
        (∀ a, env.imageResp url a = some resp) → 500 ≤ resp.status →
        download_image env url = (none, 3)) ∧
    (∀ (env : Env) (url : Str) (resp : ImgResp),
        env.imageResp url 1 = some resp →
        resp.status = 403 ∨ resp.status = 404 →
        download_image env url = (none, 1)) := by
  refine ⟨?_, ?_, ?_, ?_⟩
  · intro env cfg fuel
    obtain ⟨_, _, _, g4, _⟩ := crawlLoop_inv env cfg fuel (initState cfg)
      (by simp [initState])
      (by simp [initState])
      (by simp [initState])
      (by
        intro pd hpd
        simp only [initState, List.mem_singleton] at hpd
        exact ⟨cfg.baseUrl, by rw [hpd]⟩)
      (by simp [initState])
      (by simp [initState])
    exact g4
  · intro env url h
    simp [download_image, download_attempts, h]
  · intro env url resp h hst
    have h43 : ¬(resp.status = 403 ∨ resp.status = 404) := by omega
    simp [download_image, download_attempts, h, h43, hst]
  · intro env url resp h1 hcl
    simp [download_image, download_attempts, h1, hcl]

/-- C6 witness: the three image-retry behaviours at concrete
    environments. -/
theorem claim_C6_witness :
    (∀ a : Nat, idleEnv.imageResp imgH a = none) ∧
    download_image idleEnv imgH = (none, 3) ∧
    download_image env500 imgH = (none, 3) ∧
    download_image env404 imgH = (none, 1) :=
  ⟨fun _ => rfl, (claim_C6).2.1 idleEnv imgH (fun _ => rfl),
   (claim_C6).2.2.1 env500 imgH ⟨500, [0]⟩ (fun _ => rfl) (by decide),
   (claim_C6).2.2.2 env404 imgH ⟨404, [0]⟩ rfl (Or.inr rfl)⟩

/-- C6 counterexample: a *page* whose fetch persistently fails — as a
    500 server error or as a network error — is fetched exactly once
    (the fetch log holds a single entry) and the page is marked
    visited and skipped: page fetches are never retried, refuting the
    claimed bounded retry with backoff for transient page failures. -/
theorem claim_C6_counterexample :
    (runCrawl envC6 cfgH 3).pageFetchLog = [pageH] ∧
    (runCrawl envC6 cfgH 3).visited = [pageH] ∧
    (runCrawl idleEnv cfgH 3).pageFetchLog = [pageH] ∧
    (runCrawl idleEnv cfgH 3).visited = [pageH] := by
  exact ⟨by decide, by decide, by decide, by decide⟩

/-- C5 counterexample: with 1000 clusters (1000 candidates whose hash
    strings are mutually non-matching), `cluster_candidates` labels
    them `cluster-001` … `cluster-1000` in creation order, but the
    sorted manifest does *not* list the labels in ascending numeric
    creation order: `"cluster-1000" < "cluster-999"` as strings. -/
theorem claim_C5_counterexample :
    labelsOf (cluster_candidates bigInput) =
      (List.range' 1 1000).map clusterLabel ∧
    labelsOf (manifestOf bigInput) ≠ (List.range' 1 1000).map clusterLabel := by
  have hzz : ∀ c ∈ bigInput, c.phash = ['z', 'z'] := fun c hc => by
    rw [List.eq_of_mem_replicate hc]
    rfl
  have h1 : labelsOf (cluster_candidates bigInput) =
      (List.range' 1 1000).map clusterLabel := by
    have h := cluster_candidates_labels bigInput hzz
    rwa [show bigInput.length = 1000 by simp [bigInput]] at h
  refine ⟨h1, ?_⟩
  intro h
  have hs : List.Sorted manifestKeyLe (manifestOf bigInput) :=
    List.sorted_insertionSort manifestKeyLe (cluster_candidates bigInput)
  have hlen : (manifestOf bigInput).length = 1000 := by
    have hc := congrArg List.length h
    simpa [labelsOf] using hc
  have hl998 : (998 : Nat) < (manifestOf bigInput).length := by omega
  have hl999 : (999 : Nat) < (manifestOf bigInput).length := by omega
  have key : ∀ i : Nat, i < 1000 →
      ((manifestOf bigInput)[i]?).map (fun c => c.phashClusterId) =
        some (clusterLabel (1 + i)) := by
    intro i hi
    have hc := congrArg (fun t => t[i]?) h
    simp only [labelsOf, List.getElem?_map] at hc
    rw [hc, List.getElem?_range' 1 1 hi]
    simp
  have e998 := key 998 (by omega)
  have e999 := key 999 (by omega)
  rw [List.getElem?_eq_getElem hl998] at e998
  rw [List.getElem?_eq_getElem hl999] at e999
  simp only [Option.map_some', Option.some.injEq] at e998 e999
  norm_num at e998 e999
  have hrel := List.pairwise_iff_getElem.mp hs 998 999 hl998 hl999 (by omega)
  rcases hrel with hlt | ⟨heq, _⟩
  · rw [e998, e999] at hlt
    exact absurd hlt (by decide)
  · rw [e998, e999] at heq
    exact absurd heq (by decide)

/-! ### Regex characterization (for the extension pre-filter) -/

theorem imgExtMatchAt_iff :
    ∀ s : Str, imgExtMatchAt s = true ↔
      ∃ mid post, s = '.' :: (mid ++ post) ∧
        strLower mid ∈ rasterExtNames ∧
        (post = [] ∨ post.head? = some '?')
  | [] => by
    rw [imgExtMatchAt]
    constructor
    · intro h
      exact absurd h (by decide)
    · rintro ⟨mid, post, he, -, -⟩
      exact absurd he (by simp)
  | c :: rest => by
    rw [imgExtMatchAt, Bool.and_eq_true, decide_eq_true_eq, List.any_eq_true]
    constructor
    · rintro ⟨hc, e, hmem, he⟩
      subst hc
      rw [decide_eq_true_eq] at he
      obtain ⟨hpre, hcond⟩ := he
      obtain ⟨t, ht⟩ := List.isPrefixOf_iff_prefix.mp hpre
      refine ⟨rest.take e.length, rest.drop e.length,
        by rw [List.take_append_drop], ?_, hcond⟩
      have hmt : strLower (rest.take e.length) = (strLower rest).take e.length := by
        simp [strLower]
      rw [hmt, ← ht, List.take_left]
      exact hmem
    · rintro ⟨mid, post, he, hmem, hcond⟩
      rw [List.cons.injEq] at he
      obtain ⟨hc, hrest⟩ := he
      subst hc
      subst hrest
      refine ⟨rfl, strLower mid, hmem, ?_⟩
      rw [decide_eq_true_eq]
      constructor
      · apply List.isPrefixOf_iff_prefix.mpr
        refine ⟨strLower post, ?_⟩
        simp [strLower]
      · have hlen : (strLower mid).length = mid.length := List.length_map _ _
        rw [hlen, List.drop_left]
        exact hcond

theorem imgExtSearch_iff :
    ∀ u : Str, imgExtSearch u = true ↔
      ∃ pre mid post, u = pre ++ '.' :: (mid ++ post) ∧
        strLower mid ∈ rasterExtNames ∧
        (post = [] ∨ post.head? = some '?')
  | [] => by
    rw [imgExtSearch]
    constructor
    · intro h
      exact absurd h (by decide)
    · rintro ⟨pre, mid, post, he, -, -⟩
      exact absurd he.symm (List.append_ne_nil_of_right_ne_nil pre (by simp))
  | c :: t => by
    rw [imgExtSearch, Bool.or_eq_true]
    constructor
    · rintro (h | h)
      · obtain ⟨mid, post, he, hmem, hcond⟩ := (imgExtMatchAt_iff _).mp h
        exact ⟨[], mid, post, he, hmem, hcond⟩
      · obtain ⟨pre, mid, post, he, hmem, hcond⟩ := (imgExtSearch_iff t).mp h
        exact ⟨c :: pre, mid, post, by rw [List.cons_append, ← he], hmem, hcond⟩
    · rintro ⟨pre, mid, post, he, hmem, hcond⟩
      match pre, he with
      | [], he =>
        refine Or.inl ((imgExtMatchAt_iff _).mpr ⟨mid, post, ?_, hmem, hcond⟩)
        simpa using he
      | p :: pre, he =>
        rw [List.cons_append, List.cons.injEq] at he
        exact Or.inr ((imgExtSearch_iff t).mpr
          ⟨pre, mid, post, he.2, hmem, hcond⟩)

/-- C7 (amended): the pre-filter rejects a URL without download exactly
    when its path extension is non-empty, is not `.svg`, and
    `IMG_EXT_RE` finds no match anywhere in the *full URL* — i.e. no
    raster extension followed by end-of-string or by `?`; rejected
    URLs are skipped before any download.  A URL whose path extension
    is non-raster can thus still escape the pre-filter when a raster
    extension occurs before the query string or at its end
    (counterexample). -/
theorem claim_C7 :
    (∀ url : Str, precheckRejects url = true ↔
        (extHintOf url ≠ [] ∧ extHintOf url ≠ ".svg".toList ∧
          ¬ ∃ pre mid post, url = pre ++ '.' :: (mid ++ post) ∧
              strLower mid ∈ rasterExtNames ∧
              (post = [] ∨ post.head? = some '?'))) ∧
    (∀ (url : Str) (env : Env) (cfg : Config) (pageUrl : Str)
        (st : CrawlState) (alt : Str),
        precheckRejects url = true →
        processImage env cfg pageUrl st (url, alt) = st) := by
  constructor
  · intro url
    unfold precheckRejects
    rw [decide_eq_true_eq, ← imgExtSearch_iff]
    constructor
    · rintro ⟨h1, h2, h3⟩
      exact ⟨h1, h3, fun hc => h2 hc⟩
    · rintro ⟨h1, h3, h2⟩
      exact ⟨h1, fun hc => h2 hc, h3⟩
  · intro url env cfg pageUrl st alt h
    unfold processImage
    dsimp only
    repeat' split
    all_goals rfl

/-- C7 witness: a `.pdf` URL is rejected without any state change —
    in particular without a download. -/
theorem claim_C7_witness :
    precheckRejects "https://agsafastpitch.com/a.pdf".toList = true ∧
    processImage envC3 cfgAg pageH (initState cfgAg)
      ("https://agsafastpitch.com/a.pdf".toList, []) = initState cfgAg :=
  ⟨by decide,
    (claim_C7).2 "https://agsafastpitch.com/a.pdf".toList envC3 cfgAg pageH
      (initState cfgAg) [] (by decide)⟩

/-- C7 counterexample: `https://agsafastpitch.com/a.php?img=b.jpg` has
    the non-empty, non-raster, non-`.svg` path extension `.php`, yet
    the pre-filter does not reject it (the regex matches `.jpg` at the
    end of the query string) and `processImage` proceeds to download
    it, refuting rejected-without-download. -/
theorem claim_C7_counterexample :
    extHintOf url7 = ".php".toList ∧
    (∀ e ∈ rasterExtNames, extHintOf url7 ≠ '.' :: e) ∧
    extHintOf url7 ≠ ".svg".toList ∧
    precheckRejects url7 = false ∧
    (processImage envC3 cfgAg pageH (initState cfgAg) (url7, [])).downloadCallLog
      = [url7] := by
  exact ⟨by decide, by decide, by decide, by decide, by decide⟩

/-- C8 (amended): the stale-file pruning pass deletes exactly the
    files whose (lowercased) suffix lies in the fixed set
    {.jpg, .jpeg, .png, .webp, .gif, .bmp, .tiff} and whose name is
    not among the surviving filenames; files with any other suffix —
    including suffixes the pipeline itself can store, such as `.avif`
    or `.tif` — are never deleted. -/
theorem claim_C8 :
    (∀ (name : Str) (keep : List Str),
        strLower (pathSuffix name) ∈ pruneSuffixes → name ∉ keep →
        pruneDeletes name keep = true) ∧
    (∀ (name : Str) (keep : List Str),
        strLower (pathSuffix name) ∉ pruneSuffixes →
        pruneDeletes name keep = false) ∧
    (∀ (name : Str) (keep : List Str), name ∈ keep →
        pruneDeletes name keep = false) := by
  refine ⟨?_, ?_, ?_⟩
  · intro name keep h1 h2
    simp [pruneDeletes, h1, h2]
  · intro name keep h1
    simp [pruneDeletes, h1]
  · intro name keep h1
    simp [pruneDeletes, h1]

/-- C8 witness: a stale `.png` is deleted; a stale `.avif` is not. -/
theorem claim_C8_witness :
    (strLower (pathSuffix "stale.png".toList) ∈ pruneSuffixes ∧
     "stale.png".toList ∉ ([] : List Str) ∧
     pruneDeletes "stale.png".toList [] = true) ∧
    (strLower (pathSuffix "stale.avif".toList) ∉ pruneSuffixes ∧
     pruneDeletes "stale.avif".toList [] = false) :=
  ⟨⟨by decide, by decide, (claim_C8).1 "stale.png".toList [] (by decide) (by decide)⟩,
   ⟨by decide, (claim_C8).2.1 "stale.avif".toList [] (by decide)⟩⟩

/-- C8 counterexample: the pipeline can store an accepted image as
    `.avif` (`guess_extension` keeps a `.avif` URL-path extension),
    but `.avif` is missing from the pruning suffix set, so a stale
    `.avif` file from a prior run survives even though its name is not
    among the surviving filenames — refuting deletion for *every*
    pipeline-producible extension. -/
theorem claim_C8_counterexample :
    guess_extension "https://h/x.avif".toList "avif".toList = ".avif".toList ∧
    ".avif".toList ∉ pruneSuffixes ∧
    pruneDeletes "deadbeefdeadbeef.avif".toList [] = false := by
  exact ⟨by decide, by decide, by decide⟩

end SportSch
